import Mathlib

/-!
Verification of the profillic-hmmer model-construction pipeline
(profillic-alignment-p7_builder.hpp and profillic-alignment-hmmbuild.cpp).

The development shallowly embeds, over exact rationals:
 - the per-state transition row and HMM record (P7_HMM fields used by the
   pipeline: M, alphabet size K, transition rows t[0..M], match and insert
   emission rows, nseq, eff_nseq, max_length);
 - the profile-to-counts converter profillic_p7_Profillicmodelmaker;
 - the effective-sequence-number step effective_seqnumber and the
   counts-to-probability step profillic_parameterize;
 - the max-length dynamic program profillic_p7_Builder_MaxLength;
 - the pipeline driver profillic_p7_Builder (the stages that touch the
   modelled fields; annotation and E-value calibration are external
   collaborators that only write annotation/calibration fields);
 - the result-reordering logic of the in-process thread pool reader
   (thread_loop in profillic-alignment-hmmbuild.cpp).

Floating-point doubles are modelled as exact rationals; Easel vector
normalization (esl_vec_FNorm) follows its documented semantics: divide by
the sum, or set the vector uniform when the sum is zero.
-/

/-- Transition row of one HMM node, in the p7H order
MM, MI, MD, IM, II, DM, DD (indices 0..6 of hmm->t[k]). -/
structure TRow where
  mm : ℚ
  mi : ℚ
  md : ℚ
  im : ℚ
  ii : ℚ
  dm : ℚ
  dd : ℚ
deriving DecidableEq

/-- Zero transition row, as left by p7_hmm_Zero. -/
def TRow.zero : TRow := ⟨0, 0, 0, 0, 0, 0, 0⟩

/-- Shallow embedding of the P7_HMM fields the build pipeline reads and
writes: model length M, alphabet size K, transition rows, match and insert
emission rows, sequence counts and the max_length field. -/
structure Hmm where
  M : Nat
  K : Nat
  t : Nat → TRow
  mat : Nat → Nat → ℚ
  ins : Nat → Nat → ℚ
  nseq : ℚ
  eff_nseq : ℚ
  max_length : Int

/-- Combination of p7_hmm_Create and p7_hmm_Zero (external HMMER routines):
a model of length M over an alphabet of size K with all counts zero and
max_length at its creation sentinel -1. -/
def p7_hmm_CreateZeroed (M K : Nat) : Hmm :=
  { M := M, K := K, t := fun _ => TRow.zero, mat := fun _ _ => 0,
    ins := fun _ _ => 0, nseq := 0, eff_nseq := 0, max_length := -1 }

/-- Error statuses returned by the embedded pipeline functions. -/
inductive BuildErr where
  | eslENORESULT
  | eslERANGE
deriving DecidableEq

/-- Model length of a successful result, none on error. -/
def resultM : Except BuildErr Hmm → Option Nat
  | .ok h => some h.M
  | .error _ => none

/-- The max_length field of a successful result, none on error. -/
def resultMaxLength : Except BuildErr Hmm → Option Int
  | .ok h => some h.max_length
  | .error _ => none

/-- Whether an embedded pipeline result is a success. -/
def exceptIsOkB : Except BuildErr Hmm → Bool
  | .ok _ => true
  | .error _ => false

/-- Payload of a successful result, with a default for the error case. -/
def okHmmD (d : Hmm) : Except BuildErr Hmm → Hmm
  | .ok h => h
  | .error _ => d

/-! ## Max-Length estimator (profillic_p7_Builder_MaxLength)

Two-column rolling dynamic program over emitted-length columns.  The first
two columns are the special cases of the source; later columns are produced
by one step from the previous column. -/

/-- Column 1 match values: M[1][0] = 1, all other rows 0 (the first match
state must emit exactly one character). -/
def col1M : Nat → ℚ := fun k => if k = 1 then 1 else 0

/-- Column 1 insert values: all zero. -/
def col1I : Nat → ℚ := fun _ => 0

/-- Column 1 delete values: D[2][0] = t[1][MD], and for k ≥ 3
D[k][0] = t[k-1][DD] * D[k-1][0]. -/
def col1D (t : Nat → TRow) : Nat → ℚ
  | 0 => 0
  | 1 => 0
  | 2 => (t 1).md
  | (k + 3) => (t (k + 2)).dd * col1D t (k + 2)

/-- Column 2 insert values: I[1][1] = t[1][MI] * M[1][0], all other rows 0. -/
def col2I (t : Nat → TRow) : Nat → ℚ :=
  fun k => if k = 1 then (t 1).mi * col1M 1 else 0

/-- Column 2 match values: M[2][1] = t[1][MM] * M[1][0], and for k ≥ 3
M[k][1] = t[k-1][DM] * D[k-1][0] (from column 1). -/
def col2M (t : Nat → TRow) : Nat → ℚ
  | 0 => 0
  | 1 => 0
  | 2 => (t 1).mm * col1M 1
  | (k + 3) => (t (k + 2)).dm * col1D t (k + 2)

/-- Column 2 delete values: D[1][1] = D[2][1] = 0, and for k ≥ 3
D[k][1] = t[k-1][MD] * M[k-1][1] + t[k-1][DD] * D[k-1][1]. -/
def col2D (t : Nat → TRow) : Nat → ℚ
  | 0 => 0
  | 1 => 0
  | 2 => 0
  | (k + 3) => (t (k + 2)).md * col2M t (k + 2) + (t (k + 2)).dd * col2D t (k + 2)

/-- Rolling state of the dynamic program: the previous column's match,
insert and delete values and the accumulated terminal probability mass
p_sum. -/
structure MLState where
  Mv : Nat → ℚ
  Iv : Nat → ℚ
  Dv : Nat → ℚ
  psum : ℚ

/-- Match values of the next column: M[k] = t[k-1][MM] * M[k-1] +
t[k-1][DM] * D[k-1] + t[k-1][IM] * I[k-1], all from the previous column;
M[1] = 0. -/
def colM (t : Nat → TRow) (Mp Ip Dp : Nat → ℚ) : Nat → ℚ
  | 0 => 0
  | 1 => 0
  | (k + 2) =>
      (t (k + 1)).mm * Mp (k + 1) + (t (k + 1)).dm * Dp (k + 1)
        + (t (k + 1)).im * Ip (k + 1)

/-- Insert values of the next column: I[1] = t[1][II] * I[1] of the previous
column; I[k] = t[k][MI] * M[k] + t[k][II] * I[k], both from the previous
column. -/
def colI (t : Nat → TRow) (Mp Ip : Nat → ℚ) : Nat → ℚ
  | 0 => 0
  | 1 => (t 1).ii * Ip 1
  | (k + 2) => (t (k + 2)).mi * Mp (k + 2) + (t (k + 2)).ii * Ip (k + 2)

/-- Delete values of the next column, computed left to right within the
column: D[k] = t[k-1][MD] * M[k-1] + t[k-1][DD] * D[k-1], both from the
current column. -/
def colD (t : Nat → TRow) (Mc : Nat → ℚ) : Nat → ℚ
  | 0 => 0
  | 1 => 0
  | (k + 2) => (t (k + 1)).md * Mc (k + 1) + (t (k + 1)).dd * colD t Mc (k + 1)

/-- Loop body of the surviving-mass accumulation for rows k = 2..n:
each row contributes I[k] + M[k] * (1 - t[k][MD]) + D[k] * (1 - t[k][DD]). -/
def survBody (t : Nat → TRow) (Mc Ic Dc : Nat → ℚ) : Nat → ℚ
  | 0 => 0
  | 1 => 0
  | (n + 2) =>
      survBody t Mc Ic Dc (n + 1)
        + (Ic (n + 2) + Mc (n + 2) * (1 - (t (n + 2)).md)
           + Dc (n + 2) * (1 - (t (n + 2)).dd))

/-- Raw surviving probability mass of a column for a model of length L:
I[1] plus the k = 2..L loop contributions, corrected at the final row
(the final state does not pass into a next delete state, and carries no
insert state). -/
def survRaw (t : Nat → TRow) (L : Nat) (Mc Ic Dc : Nat → ℚ) : ℚ :=
  Ic 1 + survBody t Mc Ic Dc L
    + Mc L * (t L).md + Dc L * (t L).dd - Ic L

/-- One iteration of the general-case loop: produce the next column and add
its terminal mass M[L] + D[L] into p_sum. -/
def mlStep (t : Nat → TRow) (L : Nat) (st : MLState) : MLState :=
  let Mc := colM t st.Mv st.Iv st.Dv
  let Ic := colI t st.Mv st.Iv
  let Dc := colD t Mc
  { Mv := Mc, Iv := Ic, Dv := Dc, psum := st.psum + Mc L + Dc L }

/-- Fuel-bounded search of the general-case loop, starting at length column
col: advance one column, normalize the surviving mass by the current total
surv + p_sum, and stop at the first column where it falls below the
threshold. -/
def mlFind (t : Nat → TRow) (L : Nat) (thresh : ℚ) :
    Nat → Nat → MLState → Option Nat
  | 0, _, _ => none
  | (fuel + 1), col, st =>
      let st' := mlStep t L st
      let s := survRaw t L st'.Mv st'.Iv st'.Dv
      if s / (s + st'.psum) < thresh then some col
      else mlFind t L thresh fuel (col + 1) st'

/-- Initial rolling state entering the general-case loop at column 3: the
previous column is column 2, and p_sum already holds the terminal mass of
columns 1 and 2. -/
def mlInit (t : Nat → TRow) (L : Nat) : MLState :=
  { Mv := col2M t, Iv := col2I t, Dv := col2D t,
    psum := col1M L + col2M t L + col1D t L + col2D t L }

/-- Cap on the number of length columns (the source's length_bound). -/
def lengthBound : Nat := 200000

/-- Search of the general-case loop over columns 3..lengthBound. -/
def mlSearch (t : Nat → TRow) (L : Nat) (thresh : ℚ) : Option Nat :=
  mlFind t L thresh (lengthBound - 2) 3 (mlInit t L)

/-- Embedding of profillic_p7_Builder_MaxLength: for a one-state model set
max_length to 1 immediately; otherwise run the dynamic program, set
max_length only if the stopping condition was reached, and finally return
eslERANGE when the (possibly stale) max_length is at least length_bound. -/
def profillic_p7_Builder_MaxLength (h : Hmm) (emit_thresh : ℚ) :
    Except BuildErr Hmm :=
  if h.M = 1 then .ok { h with max_length := 1 }
  else
    let h' :=
      match mlSearch h.t h.M emit_thresh with
      | some col => { h with max_length := (col : Int) }
      | none => h
    if (lengthBound : Int) ≤ h'.max_length then .error .eslERANGE
    else .ok h'

/-! ## Profile-to-counts converter (profillic_p7_Profillicmodelmaker)

An alignment profile exposes, per position, match and insertion emission
distributions over the residue alphabet and the transition distributions
from-Match, from-Insertion, from-Deletion, from-PreAlign and from-PostAlign.
Residue digitization (esl_abc_DigitizeSymbol over the profile's residue
order) is a bijection on 0..K-1 and is modelled as the identity. -/

/-- One position of an alignment profile. -/
structure ProfilePos where
  matchEmit : Nat → ℚ
  insEmit : Nat → ℚ
  mToM : ℚ
  mToI : ℚ
  mToD : ℚ
  iToM : ℚ
  iToI : ℚ
  dToM : ℚ
  dToD : ℚ
  nToN : ℚ
  nToB : ℚ
  cToC : ℚ
  cToT : ℚ

/-- An alignment profile: its length and its positions 0..length-1. -/
structure AProfile where
  length : Nat
  pos : Nat → ProfilePos

/-- Transition rows written by the converter.  Row 0 first receives the
insertion-distribution values (MI, II, IM), which are then overwritten by
the position-0 special cases inside the residue loop over res_i = 1..K-1
(so the overwrite happens only when K ≥ 2).  Rows 1..L-2 copy the from-Match
/ from-Insertion / from-Deletion distributions; row L-1 collapses MM, MI,
IM, II to the from-PostAlign distribution (DM, MD, DD stay zeroed).  Row L
and beyond keep the zeroed row. -/
def modelmakerT (prof : AProfile) (K : Nat) : Nat → TRow := fun k =>
  if k = 0 then
    let p0 := prof.pos 0
    if 2 ≤ K then
      { mm := p0.mToM, mi := p0.mToI, md := p0.mToD,
        im := p0.nToB, ii := p0.nToN, dm := 0, dd := 0 }
    else
      { mm := 0, mi := p0.iToI, md := 0,
        im := 1 - p0.iToI, ii := p0.iToI, dm := 0, dd := 0 }
  else if k < prof.length then
    let p := prof.pos k
    if k = prof.length - 1 then
      { mm := p.cToT, mi := p.cToC, md := 0,
        im := p.cToT, ii := p.cToC, dm := 0, dd := 0 }
    else
      { mm := p.mToM, mi := p.mToI, md := p.mToD,
        im := p.iToM, ii := p.iToI, dm := p.dToM, dd := p.dToD }
  else TRow.zero

/-- Match emission rows written by the converter: row 0 is the convention
one-hot vector (first residue 1, rest 0); rows 1..L-1 copy the profile's
match emission distribution; everything else keeps the zero left by
p7_hmm_Zero. -/
def modelmakerMat (prof : AProfile) (K : Nat) : Nat → Nat → ℚ := fun k a =>
  if k = 0 then (if a = 0 then 1 else 0)
  else if k < prof.length ∧ a < K then (prof.pos k).matchEmit a
  else 0

/-- Insert emission rows written by the converter: rows 0..L-1 copy the
profile's per-position insertion emission distribution (the last position
reuses it in place of a distinct post-align insertion distribution);
everything else keeps zero. -/
def modelmakerIns (prof : AProfile) (K : Nat) : Nat → Nat → ℚ := fun k a =>
  if k < prof.length ∧ a < K then (prof.pos k).insEmit a else 0

/-- Scale one transition row by s (esl_vec_FScale over the 7 entries). -/
def scaleTRow (s : ℚ) (r : TRow) : TRow :=
  ⟨r.mm * s, r.mi * s, r.md * s, r.im * s, r.ii * s, r.dm * s, r.dd * s⟩

/-- Embedding of p7_hmm_Scale: multiply every transition, match-emission and
insert-emission entry of nodes 0..M by the scale factor. -/
def p7_hmm_Scale (s : ℚ) (h : Hmm) : Hmm :=
  { h with
    t := fun k => if k ≤ h.M then scaleTRow s (h.t k) else h.t k,
    mat := fun k a => if k ≤ h.M ∧ a < h.K then h.mat k a * s else h.mat k a,
    ins := fun k a => if k ≤ h.M ∧ a < h.K then h.ins k a * s else h.ins k a }

/-- The model as filled by the converter before the final p7_hmm_Scale:
created zeroed with M = profile length, rows written as above, and both
nseq and eff_nseq set to the alignment's sequence count. -/
def modelmakerFill (prof : AProfile) (K : Nat) (msaNseq : ℚ) : Hmm :=
  { p7_hmm_CreateZeroed prof.length K with
    t := modelmakerT prof K,
    mat := modelmakerMat prof K,
    ins := modelmakerIns prof K,
    nseq := msaNseq, eff_nseq := msaNseq }

/-- Embedding of profillic_p7_Profillicmodelmaker: fail with eslENORESULT
when the profile has length 0; otherwise fill the count model from the
profile and scale every per-position distribution by nseq so that the model
holds pseudo-observed counts. -/
def profillic_p7_Profillicmodelmaker (prof : AProfile) (K : Nat)
    (msaNseq : ℚ) : Except BuildErr Hmm :=
  if prof.length = 0 then .error .eslENORESULT
  else .ok (p7_hmm_Scale msaNseq (modelmakerFill prof K msaNseq))

/-! ## Effective sequence number (effective_seqnumber) -/

/-- Effective-sequence-number strategies (p7_EFFN_NONE, SET, CLUST,
ENTROPY). -/
inductive EffnStrategy where
  | enone
  | eset
  | eclust
  | eentropy
deriving DecidableEq

/-- Alphabet type of the builder (esl alphabet types used by the
pipeline). -/
inductive AlphType where
  | amino
  | dna
  | rna
  | other
deriving DecidableEq

/-- Dirichlet prior parameters for the external posterior-mean estimator:
one positive pseudocount per transition and per residue. -/
structure PriorP where
  pmm : ℚ
  pmi : ℚ
  pmd : ℚ
  pim : ℚ
  pii : ℚ
  pdm : ℚ
  pdd : ℚ
  pmat : Nat → ℚ
  pins : Nat → ℚ

/-- Builder configuration (the P7_BUILDER fields the embedded stages read).
The external clustering routine (esl_msacluster_SingleLinkage) and entropy
weighting routine (p7_EntropyWeight) are collaborators outside this
repository; their computed effective sequence numbers enter as the oracle
fields. -/
structure BuilderCfg where
  K : Nat
  abcType : AlphType
  effn : EffnStrategy
  eset : ℚ
  nclustOracle : ℚ
  entropyOracle : ℚ
  usePriors : Bool
  prior : PriorP
  wLen : Int
  wBeta : ℚ
  maxInsertLen : ℚ

/-- Embedding of effective_seqnumber: choose eff_nseq by strategy (nseq for
None, the caller constant for Set, the external clustering / entropy
results otherwise), store it, then rescale all counts by
eff_nseq / hmm->nseq. -/
def effective_seqnumber (bld : BuilderCfg) (msaNseq : ℚ) (h : Hmm) : Hmm :=
  let eff :=
    match bld.effn with
    | .enone => msaNseq
    | .eset => bld.eset
    | .eclust => bld.nclustOracle
    | .eentropy => bld.entropyOracle
  p7_hmm_Scale (eff / h.nseq) { h with eff_nseq := eff }

/-! ## Parameterization (profillic_parameterize) -/

/-- Easel esl_vec_FNorm on a 3-vector: divide by the sum, or set every entry
to 1/3 when the sum is zero. -/
def fnorm3 (a b c : ℚ) : ℚ × ℚ × ℚ :=
  let s := a + b + c
  if s = 0 then (1/3, 1/3, 1/3) else (a / s, b / s, c / s)

/-- Easel esl_vec_FNorm on a 2-vector: divide by the sum, or set every entry
to 1/2 when the sum is zero. -/
def fnorm2 (a b : ℚ) : ℚ × ℚ :=
  let s := a + b
  if s = 0 then (1/2, 1/2) else (a / s, b / s)

/-- Easel esl_vec_FNorm on the first K entries of an emission row. -/
def fnormVec (K : Nat) (v : Nat → ℚ) : Nat → ℚ :=
  let s := ∑ a ∈ Finset.range K, v a
  if s = 0 then (fun a => if a < K then (1 : ℚ) / K else v a)
  else (fun a => if a < K then v a / s else v a)

/-- Transition row update of the no-prior branch of profillic_parameterize:
normalize the match triple (with TMD forced to 0 first at node M), normalize
the insert pair, normalize the delete pair at nodes 1..M-1, and fix the
convention delete rows {DM = 1, DD = 0} at nodes 0 and M. -/
def paramTRow (Mn k : Nat) (r : TRow) : TRow :=
  if k ≤ Mn then
    let m3 := if k < Mn then fnorm3 r.mm r.mi r.md else fnorm3 r.mm r.mi 0
    let i2 := fnorm2 r.im r.ii
    let d2 := if 1 ≤ k ∧ k < Mn then fnorm2 r.dm r.dd else ((1 : ℚ), (0 : ℚ))
    ⟨m3.1, m3.2.1, m3.2.2, i2.1, i2.2, d2.1, d2.2⟩
  else r

/-- Match emission row update of the no-prior branch: row 0 is reset to the
convention one-hot vector; rows 1..M are normalized over the alphabet. -/
def paramMat (Mn K k : Nat) (row : Nat → ℚ) : Nat → ℚ :=
  if k = 0 then (fun a => if a = 0 then 1 else if a < K then 0 else row a)
  else if k ≤ Mn then fnormVec K row
  else row

/-- Insert emission row update of the no-prior branch: rows 0..M normalized
over the alphabet. -/
def paramIns (Mn K k : Nat) (row : Nat → ℚ) : Nat → ℚ :=
  if k ≤ Mn then fnormVec K row else row

/-- Posterior mean of a 3-row combined with Dirichlet pseudocounts. -/
def pmean3 (a b c pa pb pc : ℚ) : ℚ × ℚ × ℚ :=
  let s := a + pa + b + pb + c + pc
  ((a + pa) / s, (b + pb) / s, (c + pc) / s)

/-- Posterior mean of a 2-row combined with Dirichlet pseudocounts. -/
def pmean2 (a b pa pb : ℚ) : ℚ × ℚ :=
  let s := a + pa + b + pb
  ((a + pa) / s, (b + pb) / s)

/-- Posterior mean of an emission row combined with Dirichlet
pseudocounts over the first K residues. -/
def pmeanVec (K : Nat) (v p : Nat → ℚ) : Nat → ℚ :=
  let s := ∑ a ∈ Finset.range K, (v a + p a)
  fun a => if a < K then (v a + p a) / s else v a

/-- Modelled from the spec: p7_ParameterEstimation, the external
posterior-mean estimator used by the priors-enabled branch (spec 4.3:
counts are combined with a Dirichlet/Laplace prior per row, the final
state's match row forces TMD = 0, and the same convention rows as the
no-prior branch are fixed; both branches must leave every row summing
to 1). -/
def p7_ParameterEstimation (pri : PriorP) (h : Hmm) : Hmm :=
  { h with
    t := fun k =>
      if k ≤ h.M then
        let r := h.t k
        let m3 :=
          if k < h.M then pmean3 r.mm r.mi r.md pri.pmm pri.pmi pri.pmd
          else
            let p2 := pmean2 r.mm r.mi pri.pmm pri.pmi
            (p2.1, p2.2, (0 : ℚ))
        let i2 := pmean2 r.im r.ii pri.pim pri.pii
        let d2 :=
          if 1 ≤ k ∧ k < h.M then pmean2 r.dm r.dd pri.pdm pri.pdd
          else ((1 : ℚ), (0 : ℚ))
        ⟨m3.1, m3.2.1, m3.2.2, i2.1, i2.2, d2.1, d2.2⟩
      else h.t k,
    mat := fun k =>
      if k = 0 then
        (fun a => if a = 0 then 1 else if a < h.K then 0 else h.mat k a)
      else if k ≤ h.M then pmeanVec h.K (h.mat k) pri.pmat
      else h.mat k,
    ins := fun k =>
      if k ≤ h.M then pmeanVec h.K (h.ins k) pri.pins else h.ins k }

/-- Embedding of profillic_parameterize: with priors, delegate to the
posterior-mean estimator; without priors, normalize every row independently
with the convention rows fixed as in the source. -/
def profillic_parameterize (use_priors : Bool) (pri : PriorP) (h : Hmm) :
    Hmm :=
  if use_priors then p7_ParameterEstimation pri h
  else
    { h with
      t := fun k => paramTRow h.M k (h.t k),
      mat := fun k => paramMat h.M h.K k (h.mat k),
      ins := fun k => paramIns h.M h.K k (h.ins k) }

/-- Well-formedness of the prior setup for the priors-enabled branch:
all pseudocounts positive over the alphabet and all model counts
nonnegative. -/
def priorSetupOk (pri : PriorP) (h : Hmm) : Prop :=
  (0 < pri.pmm ∧ 0 < pri.pmi ∧ 0 < pri.pmd ∧ 0 < pri.pim ∧ 0 < pri.pii
    ∧ 0 < pri.pdm ∧ 0 < pri.pdd) ∧
  (∀ a < h.K, 0 < pri.pmat a ∧ 0 < pri.pins a) ∧
  (∀ k ≤ h.M, 0 ≤ (h.t k).mm ∧ 0 ≤ (h.t k).mi ∧ 0 ≤ (h.t k).md
    ∧ 0 ≤ (h.t k).im ∧ 0 ≤ (h.t k).ii ∧ 0 ≤ (h.t k).dm ∧ 0 ≤ (h.t k).dd) ∧
  (∀ k ≤ h.M, ∀ a < h.K, 0 ≤ h.mat k a ∧ 0 ≤ h.ins k a)

/-! ## Build pipeline (profillic_p7_Builder)

The stages that touch the modelled fields, in source order: model making,
the optional insert-length clamp, effective sequence number,
parameterization, and the alphabet-guarded max-length step.  annotate(),
calibrate() and make_post_msa() are external collaborators writing only
annotation and calibration fields and are not modelled. -/

/-- Clamp on weighted insert counts (lines guarded by max_insert_len > 0):
t[i][II] := min(t[i][II], max_insert_len * t[i][MI]) for i = 1..M-1. -/
def applyMaxInsertLen (mle : ℚ) (h : Hmm) : Hmm :=
  if 0 < mle then
    { h with
      t := fun k =>
        if 1 ≤ k ∧ k < h.M then
          { h.t k with ii := min ((h.t k).ii) (mle * (h.t k).mi) }
        else h.t k }
  else h

/-- Max-length step of the pipeline: run only for DNA or RNA alphabets, and
there set max_length from the explicit window length if given, from 4 * M
when w_beta is zero, and from profillic_p7_Builder_MaxLength otherwise. -/
def builderSetMaxLength (bld : BuilderCfg) (h : Hmm) : Except BuildErr Hmm :=
  if bld.abcType = .dna ∨ bld.abcType = .rna then
    if 0 < bld.wLen then .ok { h with max_length := bld.wLen }
    else if bld.wBeta = 0 then .ok { h with max_length := (h.M : Int) * 4 }
    else profillic_p7_Builder_MaxLength h bld.wBeta
  else .ok h

/-- Embedding of profillic_p7_Builder on the profile path: model making,
insert clamp, effective sequence number, parameterization and the guarded
max-length step, threaded through the error monad as in the source. -/
def profillic_p7_Builder (bld : BuilderCfg) (msaNseq : ℚ) (prof : AProfile) :
    Except BuildErr Hmm := do
  let h0 ← profillic_p7_Profillicmodelmaker prof bld.K msaNseq
  let h1 := applyMaxInsertLen bld.maxInsertLen h0
  let h2 := effective_seqnumber bld msaNseq h1
  let h3 := profillic_parameterize bld.usePriors bld.prior h2
  builderSetMaxLength bld h3

/-! ## In-process thread-pool reader (thread_loop)

The reader receives processed work items back from the queue in an
arbitrary completion order.  An item whose index equals the next expected
output index is emitted and the pending list is drained as long as it
continues the sequence; any other item is inserted into the pending list,
which is kept ordered by index (head comparison, then walk while the new
index is greater than the successor). -/

/-- Insertion into the tail of the pending list: walk while the new index is
greater than the next node's index, then link in front of the remainder. -/
def pendInsertTail (i : Nat) : List Nat → List Nat
  | [] => [i]
  | y :: r => if i > y then y :: pendInsertTail i r else i :: y :: r

/-- Insertion into the pending list as in the source: new head when the new
index is below the head's index, otherwise tail insertion after the head. -/
def pendInsert (i : Nat) : List Nat → List Nat
  | [] => [i]
  | x :: rest => if i < x then i :: x :: rest else x :: pendInsertTail i rest

/-- Drain of the pending list: emit while the head continues the output
sequence.  Returns the next expected index, the remaining pending list and
the extended output sequence. -/
def drainPend : Nat → List Nat → List Nat → Nat × List Nat × List Nat
  | next, [], out => (next, [], out)
  | next, x :: rest, out =>
      if x = next then drainPend (next + 1) rest (out ++ [x])
      else (next, x :: rest, out)

/-- Reader state: next expected output index, pending list ordered by index,
and the sequence of emitted indices so far. -/
structure TLState where
  next : Nat
  pend : List Nat
  out : List Nat

/-- Handling of one processed item with index i: emit and drain when it is
the next expected index, otherwise queue it in the pending list. -/
def tlStep (s : TLState) (i : Nat) : TLState :=
  if i = s.next then
    let r := drainPend (s.next + 1) s.pend (s.out ++ [i])
    { next := r.1, pend := r.2.1, out := r.2.2 }
  else
    { s with pend := pendInsert i s.pend }

/-- Whole run of the reader's result handling over a completion order:
fold the step over the received indices starting from index 1, an empty
pending list and no output. -/
def tlRun (l : List Nat) : TLState :=
  l.foldl tlStep ⟨1, [], []⟩

/-! ## Concrete inputs used by witnesses and counterexamples -/

/-- Example profile position with distinct small rational entries. -/
def ppEx : ProfilePos :=
  { matchEmit := fun a => if a = 0 then 3/4 else if a = 1 then 1/4 else 0,
    insEmit := fun a => if a = 0 then 2/5 else if a = 1 then 3/5 else 0,
    mToM := 7/10, mToI := 1/5, mToD := 1/10,
    iToM := 3/5, iToI := 2/5,
    dToM := 4/5, dToD := 1/5,
    nToN := 1/10, nToB := 9/10,
    cToC := 1/4, cToT := 3/4 }

/-- Example alignment profile of length 3. -/
def profEx : AProfile := { length := 3, pos := fun _ => ppEx }

/-- Example empty alignment profile. -/
def profEmpty : AProfile := { length := 0, pos := fun _ => ppEx }

/-- Example transition function for a two-state model whose mass never
resolves: the first node sends everything into its insert state, which
self-loops forever. -/
def tStuck : Nat → TRow :=
  fun k => if k = 1 then ⟨0, 1, 0, 0, 1, 0, 0⟩ else TRow.zero

/-- Two-state model built over tStuck with the creation-time max_length -1
(as any model fresh from p7_hmm_Create carries). -/
def hmmStuck : Hmm :=
  { M := 2, K := 2, t := tStuck, mat := fun _ _ => 1/2,
    ins := fun _ _ => 1/2, nseq := 1, eff_nseq := 1, max_length := -1 }

/-- Example transition function for a two-state model that resolves all its
mass by length column 3: the first node transitions straight to the final
match state. -/
def tFast : Nat → TRow :=
  fun k => if k = 1 then ⟨1, 0, 0, 0, 0, 0, 0⟩ else TRow.zero

/-- Example transition function separating the claimed and the implemented
column-2 delete recurrence at k = 3. -/
def tCex4 : Nat → TRow :=
  fun k =>
    if k = 1 then ⟨1/2, 0, 0, 0, 0, 0, 0⟩
    else if k = 2 then ⟨0, 0, 1, 0, 0, 1, 0⟩
    else TRow.zero

/-- Example one-state model. -/
def hmmOne : Hmm :=
  { M := 1, K := 2, t := fun _ => ⟨1/2, 1/4, 1/4, 1/2, 1/2, 1, 0⟩,
    mat := fun _ a => if a < 2 then 1/2 else 0,
    ins := fun _ a => if a < 2 then 1/2 else 0,
    nseq := 10, eff_nseq := 10, max_length := -1 }

/-- Example prior with all pseudocounts positive on a two-letter
alphabet. -/
def priEx : PriorP :=
  { pmm := 1, pmi := 1, pmd := 1, pim := 1, pii := 1, pdm := 1, pdd := 1,
    pmat := fun _ => 1, pins := fun _ => 1 }

/-- Example builder configuration: amino alphabet, no-op effective sequence
number strategy, priors disabled. -/
def bldAmino : BuilderCfg :=
  { K := 2, abcType := .amino, effn := .enone, eset := 1,
    nclustOracle := 1, entropyOracle := 1, usePriors := false,
    prior := priEx, wLen := -1, wBeta := 1/10000000, maxInsertLen := 0 }

/-- Invariant of the dynamic-programming state over tStuck: all mass sits in
the first insert state, nothing has terminated. -/
def stuckInv (st : MLState) : Prop :=
  st.Mv 1 = 0 ∧ st.Mv 2 = 0 ∧ st.Iv 1 = 1 ∧ st.Iv 2 = 0 ∧
    st.Dv 1 = 0 ∧ st.Dv 2 = 0 ∧ st.psum = 0

/-- Invariant of the reader state relative to the multiset of indices
received so far: the output is the initial segment up to next - 1, the
pending list is strictly sorted with every entry above next, and output
plus pending is a permutation of what was received. -/
def tlInv (s : TLState) (rec : List Nat) : Prop :=
  1 ≤ s.next ∧
  s.out = List.range' 1 (s.next - 1) ∧
  s.pend.Pairwise (· < ·) ∧
  (∀ x ∈ s.pend, s.next < x) ∧
  List.Perm (s.out ++ s.pend) rec

/-! ## Helper lemmas -/

lemma fnorm3_sum (a b c : ℚ) :
    (fnorm3 a b c).1 + (fnorm3 a b c).2.1 + (fnorm3 a b c).2.2 = 1 := by
  unfold fnorm3
  dsimp only
  split
  · norm_num
  · rename_i hs
    rw [div_add_div_same, div_add_div_same, div_self hs]

lemma fnorm2_sum (a b : ℚ) : (fnorm2 a b).1 + (fnorm2 a b).2 = 1 := by
  unfold fnorm2
  dsimp only
  split
  · norm_num
  · rename_i hs
    rw [div_add_div_same, div_self hs]

lemma fnormVec_sum (K : Nat) (v : Nat → ℚ) (hK : 1 ≤ K) :
    ∑ a ∈ Finset.range K, fnormVec K v a = 1 := by
  unfold fnormVec
  split
  · rw [Finset.sum_congr rfl
      (fun a ha => if_pos (Finset.mem_range.mp ha))]
    rw [Finset.sum_const, Finset.card_range, nsmul_eq_mul, mul_one_div,
      div_self]
    exact_mod_cast Nat.one_le_iff_ne_zero.mp hK
  · rename_i hs
    rw [Finset.sum_congr rfl
      (fun a ha => if_pos (Finset.mem_range.mp ha))]
    rw [← Finset.sum_div, div_self hs]

lemma onehot_sum (K : Nat) (row : Nat → ℚ) (hK : 1 ≤ K) :
    ∑ a ∈ Finset.range K,
      (if a = 0 then (1 : ℚ) else if a < K then 0 else row a) = 1 := by
  rw [Finset.sum_eq_single 0]
  · simp
  · intro b hb hb0
    simp [hb0, Finset.mem_range.mp hb]
  · intro hn
    exact absurd (Finset.mem_range.mpr hK) hn

lemma pmean3_sum (a b c pa pb pc : ℚ) (ha : 0 ≤ a) (hb : 0 ≤ b) (hc : 0 ≤ c)
    (hpa : 0 < pa) (hpb : 0 < pb) (hpc : 0 < pc) :
    (pmean3 a b c pa pb pc).1 + (pmean3 a b c pa pb pc).2.1
      + (pmean3 a b c pa pb pc).2.2 = 1 := by
  unfold pmean3
  dsimp only
  have hs : a + pa + b + pb + c + pc ≠ 0 := by positivity
  rw [div_add_div_same, div_add_div_same]
  rw [show a + pa + (b + pb) + (c + pc) = a + pa + b + pb + c + pc by ring]
  exact div_self hs

lemma pmean2_sum (a b pa pb : ℚ) (ha : 0 ≤ a) (hb : 0 ≤ b)
    (hpa : 0 < pa) (hpb : 0 < pb) :
    (pmean2 a b pa pb).1 + (pmean2 a b pa pb).2 = 1 := by
  unfold pmean2
  dsimp only
  have hs : a + pa + b + pb ≠ 0 := by positivity
  rw [div_add_div_same]
  rw [show a + pa + (b + pb) = a + pa + b + pb by ring]
  exact div_self hs

lemma pmeanVec_sum (K : Nat) (v p : Nat → ℚ) (hK : 1 ≤ K)
    (hv : ∀ a < K, 0 ≤ v a) (hp : ∀ a < K, 0 < p a) :
    ∑ a ∈ Finset.range K, pmeanVec K v p a = 1 := by
  unfold pmeanVec
  have hs : 0 < ∑ a ∈ Finset.range K, (v a + p a) := by
    apply Finset.sum_pos
    · intro a ha
      have h1 := hv a (Finset.mem_range.mp ha)
      have h2 := hp a (Finset.mem_range.mp ha)
      linarith
    · simpa [Finset.nonempty_range_iff] using Nat.one_le_iff_ne_zero.mp hK
  rw [Finset.sum_congr rfl (fun a ha => if_pos (Finset.mem_range.mp ha))]
  rw [← Finset.sum_div, div_self hs.ne']

lemma scaleTRow_one (r : TRow) : scaleTRow 1 r = r := by
  cases r
  simp [scaleTRow]

lemma p7_hmm_Scale_one (h : Hmm) : p7_hmm_Scale 1 h = h := by
  cases h with
  | mk M K t mat ins ns eff ml =>
    simp only [p7_hmm_Scale, Hmm.mk.injEq, and_true, true_and]
    refine ⟨funext fun k => ?_, funext fun k => funext fun a => ?_,
      funext fun k => funext fun a => ?_⟩
    · dsimp only
      split
      · exact scaleTRow_one _
      · rfl
    · dsimp only
      split <;> simp
    · dsimp only
      split <;> simp

lemma applyMaxInsertLen_max_length (m : ℚ) (h : Hmm) :
    (applyMaxInsertLen m h).max_length = h.max_length := by
  unfold applyMaxInsertLen
  split <;> rfl

lemma applyMaxInsertLen_M (m : ℚ) (h : Hmm) :
    (applyMaxInsertLen m h).M = h.M := by
  unfold applyMaxInsertLen
  split <;> rfl

lemma effective_seqnumber_max_length (bld : BuilderCfg) (n : ℚ) (h : Hmm) :
    (effective_seqnumber bld n h).max_length = h.max_length := rfl

lemma profillic_parameterize_max_length (up : Bool) (pri : PriorP) (h : Hmm) :
    (profillic_parameterize up pri h).max_length = h.max_length := by
  unfold profillic_parameterize p7_ParameterEstimation
  split <;> rfl

lemma modelmaker_ok_max_length (prof : AProfile) (K : Nat) (n : ℚ) (h : Hmm)
    (hres : profillic_p7_Profillicmodelmaker prof K n = .ok h) :
    h.max_length = -1 := by
  unfold profillic_p7_Profillicmodelmaker at hres
  split at hres
  · simp at hres
  · injection hres with he
    rw [← he]
    rfl

/-! ## Claims C1, C4, C6, C8, C9 -/

/-- Claim C1: for every alignment profile of length L ≥ 1 the converter
succeeds with a count model of model length M = L, and for L = 0 it fails
with the eslENORESULT (EmptyModel) status and returns no model. -/
theorem spec_C1 (prof : AProfile) (K : Nat) (n : ℚ) :
    (1 ≤ prof.length →
      resultM (profillic_p7_Profillicmodelmaker prof K n) = some prof.length) ∧
    (prof.length = 0 →
      profillic_p7_Profillicmodelmaker prof K n = .error .eslENORESULT) := by
  constructor
  · intro hL
    have h0 : ¬ prof.length = 0 := by omega
    unfold profillic_p7_Profillicmodelmaker
    rw [if_neg h0]
    rfl
  · intro h0
    unfold profillic_p7_Profillicmodelmaker
    rw [if_pos h0]

/-- Witness for C1 at a concrete length-3 profile and a concrete empty
profile. -/
theorem spec_C1_witness :
    resultM (profillic_p7_Profillicmodelmaker profEx 2 2) = some 3 ∧
    profillic_p7_Profillicmodelmaker profEmpty 2 2 = .error .eslENORESULT :=
  ⟨(spec_C1 profEx 2 2).1 (by decide), (spec_C1 profEmpty 2 2).2 rfl⟩

/-- Counterexample to claim C4 as stated: at k = 3 the claimed column-2
delete recurrence Delete(k) = t[k-1][MD] * Match(k) + t[k-1][DD] *
Delete(k-1) disagrees with the implemented one, which uses Match(k-1) of
column 2 rather than Match(k). -/
theorem spec_C4_cex :
    ¬ (col2D tCex4 3 =
        (tCex4 2).md * col2M tCex4 3 + (tCex4 2).dd * col2D tCex4 2) := by
  intro hcl
  have hcode : col2D tCex4 3
      = (tCex4 2).md * col2M tCex4 2 + (tCex4 2).dd * col2D tCex4 2 := rfl
  have hM2 : col2M tCex4 2 = 1/2 := by
    show (tCex4 1).mm * col1M 1 = 1/2
    norm_num [tCex4, col1M]
  have hM3 : col2M tCex4 3 = 0 := by
    show (tCex4 2).dm * col1D tCex4 2 = 0
    have hd : col1D tCex4 2 = (tCex4 1).md := rfl
    rw [hd]
    norm_num [tCex4]
  have hD2 : col2D tCex4 2 = 0 := rfl
  rw [hcode, hM2, hM3, hD2] at hcl
  norm_num [tCex4] at hcl

/-- Claim C4 as amended: the column-2 initialization satisfies
Insert(1) = t[1][MI] * Match(1), Match(2) = t[1][MM] * Match(1), and for
every k ≥ 3, Match(k) = t[k-1][DM] * Delete(k-1) taken from column 1,
Insert(k) = 0, and Delete(k) = t[k-1][MD] * Match(k-1)[col2] +
t[k-1][DD] * Delete(k-1)[col2]. -/
theorem spec_C4 (t : Nat → TRow) (k : Nat) (hk : 3 ≤ k) :
    col2I t 1 = (t 1).mi * col1M 1 ∧
    col2M t 2 = (t 1).mm * col1M 1 ∧
    col2M t k = (t (k - 1)).dm * col1D t (k - 1) ∧
    col2I t k = 0 ∧
    col2D t k = (t (k - 1)).md * col2M t (k - 1)
      + (t (k - 1)).dd * col2D t (k - 1) := by
  obtain ⟨j, rfl⟩ : ∃ j, k = j + 3 := ⟨k - 3, by omega⟩
  refine ⟨rfl, rfl, ?_, ?_, ?_⟩
  · rw [show j + 3 - 1 = j + 2 by omega]
    rfl
  · simp [col2I]
  · rw [show j + 3 - 1 = j + 2 by omega]
    rfl

/-- Witness for the amended C4 at the concrete model tCex4 and k = 3. -/
theorem spec_C4_witness :
    col2I tCex4 1 = (tCex4 1).mi * col1M 1 ∧
    col2M tCex4 2 = (tCex4 1).mm * col1M 1 ∧
    col2M tCex4 3 = (tCex4 2).dm * col1D tCex4 2 ∧
    col2I tCex4 3 = 0 ∧
    col2D tCex4 3 = (tCex4 2).md * col2M tCex4 2
      + (tCex4 2).dd * col2D tCex4 2 :=
  spec_C4 tCex4 3 (by norm_num)

/-- Claim C6: for a model of length M = 1 the max-length estimator
immediately sets max_length = 1 and returns success, for any tail-mass
threshold. -/
theorem spec_C6 (h : Hmm) (thresh : ℚ) (hM : h.M = 1) :
    profillic_p7_Builder_MaxLength h thresh = .ok { h with max_length := 1 } := by
  unfold profillic_p7_Builder_MaxLength
  rw [hM]
  simp

/-- Witness for C6 at a concrete one-state model. -/
theorem spec_C6_witness :
    profillic_p7_Builder_MaxLength hmmOne (1/2) =
      .ok { hmmOne with max_length := 1 } :=
  spec_C6 hmmOne (1/2) rfl

/-- Claim C8: after filling, the converter multiplies every per-position
transition and emission distribution by nseq (the sequence count taken
from the alignment metadata), so the returned model holds pseudo-observed
counts: each returned row equals the filled row scaled by nseq. -/
theorem spec_C8 (prof : AProfile) (K : Nat) (n : ℚ) (k a : Nat)
    (hL : 1 ≤ prof.length) (hk : k ≤ prof.length) (ha : a < K) :
    (okHmmD (p7_hmm_CreateZeroed 0 0)
        (profillic_p7_Profillicmodelmaker prof K n)).t k
      = scaleTRow n ((modelmakerFill prof K n).t k) ∧
    (okHmmD (p7_hmm_CreateZeroed 0 0)
        (profillic_p7_Profillicmodelmaker prof K n)).mat k a
      = (modelmakerFill prof K n).mat k a * n ∧
    (okHmmD (p7_hmm_CreateZeroed 0 0)
        (profillic_p7_Profillicmodelmaker prof K n)).ins k a
      = (modelmakerFill prof K n).ins k a * n ∧
    (okHmmD (p7_hmm_CreateZeroed 0 0)
        (profillic_p7_Profillicmodelmaker prof K n)).nseq = n := by
  have h0 : ¬ prof.length = 0 := by omega
  unfold profillic_p7_Profillicmodelmaker
  rw [if_neg h0]
  refine ⟨?_, ?_, ?_, rfl⟩
  · show (p7_hmm_Scale n (modelmakerFill prof K n)).t k = _
    unfold p7_hmm_Scale
    exact if_pos (show k ≤ (modelmakerFill prof K n).M from hk)
  · show (p7_hmm_Scale n (modelmakerFill prof K n)).mat k a = _
    unfold p7_hmm_Scale
    exact if_pos ⟨hk, ha⟩
  · show (p7_hmm_Scale n (modelmakerFill prof K n)).ins k a = _
    unfold p7_hmm_Scale
    exact if_pos ⟨hk, ha⟩

/-- Witness for C8 at the concrete length-3 profile, node 1, residue 0. -/
theorem spec_C8_witness :
    (okHmmD (p7_hmm_CreateZeroed 0 0)
        (profillic_p7_Profillicmodelmaker profEx 2 2)).t 1
      = scaleTRow 2 ((modelmakerFill profEx 2 2).t 1) ∧
    (okHmmD (p7_hmm_CreateZeroed 0 0)
        (profillic_p7_Profillicmodelmaker profEx 2 2)).mat 1 0
      = (modelmakerFill profEx 2 2).mat 1 0 * 2 ∧
    (okHmmD (p7_hmm_CreateZeroed 0 0)
        (profillic_p7_Profillicmodelmaker profEx 2 2)).ins 1 0
      = (modelmakerFill profEx 2 2).ins 1 0 * 2 ∧
    (okHmmD (p7_hmm_CreateZeroed 0 0)
        (profillic_p7_Profillicmodelmaker profEx 2 2)).nseq = 2 :=
  spec_C8 profEx 2 2 1 0 (by decide) (by decide) (by decide)

/-- Claim C9: reweighting with the effective-sequence-number strategy None
sets eff_nseq to nseq, and the rescaling by eff_nseq / nseq = 1 leaves
every transition and emission count unchanged: the result is the input
model with only its eff_nseq field written. -/
theorem spec_C9 (bld : BuilderCfg) (msaNseq : ℚ) (h : Hmm)
    (hs : bld.effn = .enone) (h1 : h.nseq = msaNseq) (h2 : msaNseq ≠ 0) :
    effective_seqnumber bld msaNseq h = { h with eff_nseq := msaNseq } := by
  unfold effective_seqnumber
  rw [hs]
  dsimp only
  rw [show ({ h with eff_nseq := msaNseq } : Hmm).nseq = msaNseq from h1,
    div_self h2]
  exact p7_hmm_Scale_one _

/-- Witness for C9 at nseq = 10 on a concrete model. -/
theorem spec_C9_witness :
    effective_seqnumber bldAmino 10 hmmOne = { hmmOne with eff_nseq := 10 } :=
  spec_C9 bldAmino 10 hmmOne rfl rfl (by norm_num)

lemma paramTRow_sums (Mn k : Nat) (r : TRow) (hk : k ≤ Mn) :
    (paramTRow Mn k r).mm + (paramTRow Mn k r).mi + (paramTRow Mn k r).md = 1 ∧
    (paramTRow Mn k r).im + (paramTRow Mn k r).ii = 1 ∧
    (paramTRow Mn k r).dm + (paramTRow Mn k r).dd = 1 := by
  unfold paramTRow
  rw [if_pos hk]
  dsimp only
  refine ⟨?_, fnorm2_sum _ _, ?_⟩
  · split
    · exact fnorm3_sum _ _ _
    · exact fnorm3_sum _ _ _
  · split
    · exact fnorm2_sum _ _
    · norm_num

/-- Claim C5: after the parameterizer runs, with priors enabled or
disabled, every transition-group row and every match- and insert-emission
row of nodes 0..M sums to 1 (hence is within 1e-6 of 1), including the
convention rows fixed by the source.  For the priors-enabled branch the
external posterior-mean estimator is modelled from the spec and the counts
and pseudocounts are assumed admissible (nonnegative counts, positive
pseudocounts). -/
theorem spec_C5 (up : Bool) (pri : PriorP) (h : Hmm) (k : Nat)
    (hK : 1 ≤ h.K) (hk : k ≤ h.M)
    (hpri : up = true → priorSetupOk pri h) :
    ((profillic_parameterize up pri h).t k).mm
      + ((profillic_parameterize up pri h).t k).mi
      + ((profillic_parameterize up pri h).t k).md = 1 ∧
    ((profillic_parameterize up pri h).t k).im
      + ((profillic_parameterize up pri h).t k).ii = 1 ∧
    ((profillic_parameterize up pri h).t k).dm
      + ((profillic_parameterize up pri h).t k).dd = 1 ∧
    (∑ a ∈ Finset.range h.K, (profillic_parameterize up pri h).mat k a) = 1 ∧
    (∑ a ∈ Finset.range h.K, (profillic_parameterize up pri h).ins k a) = 1 := by
  cases up with
  | false =>
    have hpp : profillic_parameterize false pri h
        = { h with t := fun k => paramTRow h.M k (h.t k),
                   mat := fun k => paramMat h.M h.K k (h.mat k),
                   ins := fun k => paramIns h.M h.K k (h.ins k) } := rfl
    rw [hpp]
    dsimp only
    obtain ⟨h1, h2, h3⟩ := paramTRow_sums h.M k (h.t k) hk
    refine ⟨h1, h2, h3, ?_, ?_⟩
    · unfold paramMat
      by_cases hk0 : k = 0
      · subst hk0
        rw [if_pos rfl]
        exact onehot_sum h.K (h.mat 0) hK
      · rw [if_neg hk0, if_pos hk]
        exact fnormVec_sum h.K _ hK
    · unfold paramIns
      rw [if_pos hk]
      exact fnormVec_sum h.K _ hK
  | true =>
    obtain ⟨hal, hpe, htr, hem⟩ := hpri rfl
    have hpp : profillic_parameterize true pri h = p7_ParameterEstimation pri h := rfl
    rw [hpp]
    unfold p7_ParameterEstimation
    dsimp only
    have htk := htr k hk
    refine ⟨?_, ?_, ?_, ?_, ?_⟩
    · rw [if_pos hk]
      dsimp only
      split
      · exact pmean3_sum _ _ _ _ _ _ htk.1 htk.2.1 htk.2.2.1
          hal.1 hal.2.1 hal.2.2.1
      · have hp2 := pmean2_sum (h.t k).mm (h.t k).mi pri.pmm pri.pmi
          htk.1 htk.2.1 hal.1 hal.2.1
        dsimp only
        linarith [hp2]
    · rw [if_pos hk]
      dsimp only
      exact pmean2_sum _ _ _ _ htk.2.2.2.1 htk.2.2.2.2.1 hal.2.2.2.1 hal.2.2.2.2.1
    · rw [if_pos hk]
      dsimp only
      split
      · exact pmean2_sum _ _ _ _ htk.2.2.2.2.2.1 htk.2.2.2.2.2.2
          hal.2.2.2.2.2.1 hal.2.2.2.2.2.2
      · norm_num
    · by_cases hk0 : k = 0
      · subst hk0
        rw [if_pos rfl]
        exact onehot_sum h.K (h.mat 0) hK
      · rw [if_neg hk0, if_pos hk]
        apply pmeanVec_sum h.K _ _ hK
        · intro a ha
          exact (hem k hk a ha).1
        · intro a ha
          exact (hpe a ha).1
    · rw [if_pos hk]
      apply pmeanVec_sum h.K _ _ hK
      · intro a ha
        exact (hem k hk a ha).2
      · intro a ha
        exact (hpe a ha).2

lemma priorSetupOk_ex : priorSetupOk priEx hmmOne := by
  refine ⟨?_, ?_, ?_, ?_⟩
  · norm_num [priEx]
  · intro a ha
    norm_num [priEx]
  · intro k hk
    norm_num [hmmOne]
  · intro k hk a ha
    refine ⟨?_, ?_⟩ <;> simp only [hmmOne] <;> split <;> norm_num

/-- Witness for C5 at the concrete model hmmOne, node 1, with priors
enabled and the concrete Laplace-style prior priEx. -/
theorem spec_C5_witness :
    ((profillic_parameterize true priEx hmmOne).t 1).mm
      + ((profillic_parameterize true priEx hmmOne).t 1).mi
      + ((profillic_parameterize true priEx hmmOne).t 1).md = 1 ∧
    ((profillic_parameterize true priEx hmmOne).t 1).im
      + ((profillic_parameterize true priEx hmmOne).t 1).ii = 1 ∧
    ((profillic_parameterize true priEx hmmOne).t 1).dm
      + ((profillic_parameterize true priEx hmmOne).t 1).dd = 1 ∧
    (∑ a ∈ Finset.range hmmOne.K,
      (profillic_parameterize true priEx hmmOne).mat 1 a) = 1 ∧
    (∑ a ∈ Finset.range hmmOne.K,
      (profillic_parameterize true priEx hmmOne).ins 1 a) = 1 :=
  spec_C5 true priEx hmmOne 1 (by decide) (by decide) (fun _ => priorSetupOk_ex)

/-! ## Claim C10 -/

/-- Claim C10: the pipeline performs the max-length step only for DNA or
RNA alphabets.  For an amino alphabet the guarded step is the identity on
the model, and a successfully built amino model carries the max_length the
freshly created model carried (the p7_hmm_Create sentinel). -/
theorem spec_C10 (bld : BuilderCfg) (prof : AProfile) (n : ℚ) (h0 : Hmm)
    (ha : bld.abcType = .amino) :
    builderSetMaxLength bld h0 = .ok h0 ∧
    resultMaxLength (profillic_p7_Builder bld n prof) =
      (if exceptIsOkB (profillic_p7_Builder bld n prof)
       then some ((p7_hmm_CreateZeroed prof.length bld.K).max_length)
       else none) := by
  have hstage : ∀ h1 : Hmm, builderSetMaxLength bld h1 = .ok h1 := by
    intro h1
    unfold builderSetMaxLength
    rw [if_neg]
    rw [ha]
    simp
  refine ⟨hstage h0, ?_⟩
  unfold profillic_p7_Builder
  cases hres : profillic_p7_Profillicmodelmaker prof bld.K n with
  | error e =>
    simp only [hres]
    rfl
  | ok hm =>
    have hml : hm.max_length = -1 := modelmaker_ok_max_length prof bld.K n hm hres
    simp only [hres]
    have hbind : (Except.ok hm >>= fun h0 =>
        (fun h3 => builderSetMaxLength bld h3)
          (profillic_parameterize bld.usePriors bld.prior
            (effective_seqnumber bld n (applyMaxInsertLen bld.maxInsertLen h0))))
        = builderSetMaxLength bld
            (profillic_parameterize bld.usePriors bld.prior
              (effective_seqnumber bld n (applyMaxInsertLen bld.maxInsertLen hm))) := rfl
    rw [hbind, hstage]
    have hml3 : (profillic_parameterize bld.usePriors bld.prior
        (effective_seqnumber bld n
          (applyMaxInsertLen bld.maxInsertLen hm))).max_length = -1 := by
      rw [profillic_parameterize_max_length, effective_seqnumber_max_length,
        applyMaxInsertLen_max_length, hml]
    simp [resultMaxLength, exceptIsOkB, hml3, p7_hmm_CreateZeroed]

/-- Witness for C10 at a concrete amino configuration and profile. -/
theorem spec_C10_witness :
    builderSetMaxLength bldAmino hmmOne = .ok hmmOne ∧
    resultMaxLength (profillic_p7_Builder bldAmino 2 profEx) =
      (if exceptIsOkB (profillic_p7_Builder bldAmino 2 profEx)
       then some ((p7_hmm_CreateZeroed profEx.length bldAmino.K).max_length)
       else none) :=
  spec_C10 bldAmino profEx 2 hmmOne rfl

/-! ## Claims C3 and C7: the max-length search loop -/

lemma mlFind_some_ge (t : Nat → TRow) (L : Nat) (eps : ℚ) :
    ∀ (fuel col : Nat) (st : MLState) (w : Nat),
      mlFind t L eps fuel col st = some w → col ≤ w := by
  intro fuel
  induction fuel with
  | zero =>
    intro col st w hw
    simp [mlFind] at hw
  | succ m ih =>
    intro col st w hw
    unfold mlFind at hw
    dsimp only at hw
    split at hw
    · injection hw with h1
      omega
    · have := ih (col + 1) _ w hw
      omega

lemma mlFind_mono (t : Nat → TRow) (L : Nat) (e1 e2 : ℚ) (he : e1 ≤ e2) :
    ∀ (fuel col : Nat) (st : MLState) (w1 w2 : Nat),
      mlFind t L e1 fuel col st = some w1 →
      mlFind t L e2 fuel col st = some w2 → w2 ≤ w1 := by
  intro fuel
  induction fuel with
  | zero =>
    intro col st w1 w2 h1 h2
    simp [mlFind] at h1
  | succ m ih =>
    intro col st w1 w2 h1 h2
    unfold mlFind at h1 h2
    dsimp only at h1 h2
    split at h1
    · rename_i hcond
      injection h1 with hw1
      rw [if_pos (lt_of_lt_of_le hcond he)] at h2
      injection h2 with hw2
      omega
    · rename_i hcond
      split at h2
      · injection h2 with hw2
        have := mlFind_some_ge t L e1 m (col + 1) _ w1 h1
        omega
      · exact ih (col + 1) _ w1 w2 h1 h2

/-- Claim C7: the max-length search is monotone in the tail threshold.
For a fixed model, whenever both searches reach the stopping condition
within the column cap, the column found with the smaller threshold is at
least the column found with the larger one. -/
theorem spec_C7 (t : Nat → TRow) (L : Nat) (e1 e2 : ℚ) (w1 w2 : Nat)
    (he : e1 ≤ e2)
    (h1 : mlSearch t L e1 = some w1) (h2 : mlSearch t L e2 = some w2) :
    w2 ≤ w1 :=
  mlFind_mono t L e1 e2 he (lengthBound - 2) 3 (mlInit t L) w1 w2 h1 h2

lemma fast_search (eps : ℚ) (h0 : 0 < eps) : mlSearch tFast 2 eps = some 3 := by
  have e1 : col2M tFast 1 = 0 := rfl
  have e2m : col2M tFast 2 = (tFast 1).mm * col1M 1 := rfl
  have e2 : col2M tFast 2 = 1 := by
    rw [e2m]
    norm_num [tFast, col1M]
  have e3 : col2I tFast 1 = (tFast 1).mi * col1M 1 := rfl
  have e3v : col2I tFast 1 = 0 := by
    rw [e3]
    norm_num [tFast, col1M]
  have e4 : col2I tFast 2 = 0 := rfl
  have e5 : col2D tFast 1 = 0 := rfl
  have e6 : col2D tFast 2 = 0 := rfl
  have e7 : col1M 2 = 0 := rfl
  have e8 : col1D tFast 2 = (tFast 1).md := rfl
  have e8v : col1D tFast 2 = 0 := by
    rw [e8]
    norm_num [tFast]
  have m1 : colM tFast (col2M tFast) (col2I tFast) (col2D tFast) 1 = 0 := rfl
  have m2 : colM tFast (col2M tFast) (col2I tFast) (col2D tFast) 2
      = (tFast 1).mm * col2M tFast 1 + (tFast 1).dm * col2D tFast 1
        + (tFast 1).im * col2I tFast 1 := rfl
  have m2v : colM tFast (col2M tFast) (col2I tFast) (col2D tFast) 2 = 0 := by
    rw [m2, e1, e5, e3v]
    norm_num [tFast]
  have i1 : colI tFast (col2M tFast) (col2I tFast) 1
      = (tFast 1).ii * col2I tFast 1 := rfl
  have i1v : colI tFast (col2M tFast) (col2I tFast) 1 = 0 := by
    rw [i1, e3v]
    norm_num [tFast]
  have i2 : colI tFast (col2M tFast) (col2I tFast) 2
      = (tFast 2).mi * col2M tFast 2 + (tFast 2).ii * col2I tFast 2 := rfl
  have i2v : colI tFast (col2M tFast) (col2I tFast) 2 = 0 := by
    rw [i2, e2, e4]
    norm_num [tFast, TRow.zero]
  have d1 : colD tFast (colM tFast (col2M tFast) (col2I tFast) (col2D tFast)) 1
      = 0 := rfl
  have d2 : colD tFast (colM tFast (col2M tFast) (col2I tFast) (col2D tFast)) 2
      = (tFast 1).md * colM tFast (col2M tFast) (col2I tFast) (col2D tFast) 1
        + (tFast 1).dd
          * colD tFast (colM tFast (col2M tFast) (col2I tFast) (col2D tFast)) 1
      := rfl
  have d2v : colD tFast (colM tFast (col2M tFast) (col2I tFast) (col2D tFast)) 2
      = 0 := by
    rw [d2, m1, d1]
    norm_num [tFast]
  have hsurv : survRaw tFast 2 (mlStep tFast 2 (mlInit tFast 2)).Mv
      (mlStep tFast 2 (mlInit tFast 2)).Iv
      (mlStep tFast 2 (mlInit tFast 2)).Dv = 0 := by
    show survRaw tFast 2 (colM tFast (col2M tFast) (col2I tFast) (col2D tFast))
      (colI tFast (col2M tFast) (col2I tFast))
      (colD tFast (colM tFast (col2M tFast) (col2I tFast) (col2D tFast))) = 0
    unfold survRaw
    rw [show survBody tFast
        (colM tFast (col2M tFast) (col2I tFast) (col2D tFast))
        (colI tFast (col2M tFast) (col2I tFast))
        (colD tFast (colM tFast (col2M tFast) (col2I tFast) (col2D tFast))) 2
      = 0 + (colI tFast (col2M tFast) (col2I tFast) 2
          + colM tFast (col2M tFast) (col2I tFast) (col2D tFast) 2
            * (1 - (tFast 2).md)
          + colD tFast (colM tFast (col2M tFast) (col2I tFast) (col2D tFast)) 2
            * (1 - (tFast 2).dd)) from rfl]
    rw [i1v, i2v, m2v, d2v]
    norm_num [tFast, TRow.zero]
  have hpsum : (mlStep tFast 2 (mlInit tFast 2)).psum = 1 := by
    show col1M 2 + col2M tFast 2 + col1D tFast 2 + col2D tFast 2
        + colM tFast (col2M tFast) (col2I tFast) (col2D tFast) 2
        + colD tFast (colM tFast (col2M tFast) (col2I tFast) (col2D tFast)) 2
      = 1
    rw [e7, e2, e8v, e6, m2v, d2v]
    norm_num
  unfold mlSearch
  rw [show lengthBound - 2 = 199997 + 1 from rfl]
  unfold mlFind
  dsimp only
  rw [if_pos]
  rw [hsurv, hpsum]
  norm_num
  exact h0

/-- Witness for C7: at the concrete model tFast both searches stop at
column 3, for thresholds 1e-7 and 1e-2. -/
theorem spec_C7_witness :
    mlSearch tFast 2 (1/10000000) = some 3 ∧
    mlSearch tFast 2 (1/100) = some 3 ∧ (3 : Nat) ≤ 3 :=
  ⟨fast_search (1/10000000) (by norm_num), fast_search (1/100) (by norm_num),
    spec_C7 tFast 2 (1/10000000) (1/100) 3 3 (by norm_num)
      (fast_search (1/10000000) (by norm_num))
      (fast_search (1/100) (by norm_num))⟩

lemma stuckInv_init : stuckInv (mlInit tStuck 2) := by
  have e2m : col2M tStuck 2 = (tStuck 1).mm * col1M 1 := rfl
  have e2 : col2M tStuck 2 = 0 := by
    rw [e2m]
    norm_num [tStuck, col1M]
  have e3 : col2I tStuck 1 = (tStuck 1).mi * col1M 1 := rfl
  have e3v : col2I tStuck 1 = 1 := by
    rw [e3]
    norm_num [tStuck, col1M]
  have e8 : col1D tStuck 2 = (tStuck 1).md := rfl
  have e8v : col1D tStuck 2 = 0 := by
    rw [e8]
    norm_num [tStuck]
  refine ⟨rfl, e2, e3v, rfl, rfl, rfl, ?_⟩
  show col1M 2 + col2M tStuck 2 + col1D tStuck 2 + col2D tStuck 2 = 0
  rw [e2, e8v]
  norm_num [col1M, col2D]

lemma stuckInv_step (st : MLState) (h : stuckInv st) :
    stuckInv (mlStep tStuck 2 st) := by
  obtain ⟨h1, h2, h3, h4, h5, h6, h7⟩ := h
  have hM1 : colM tStuck st.Mv st.Iv st.Dv 1 = 0 := rfl
  have hM2 : colM tStuck st.Mv st.Iv st.Dv 2
      = (tStuck 1).mm * st.Mv 1 + (tStuck 1).dm * st.Dv 1
        + (tStuck 1).im * st.Iv 1 := rfl
  have hM2v : colM tStuck st.Mv st.Iv st.Dv 2 = 0 := by
    rw [hM2, h1, h5, h3]
    norm_num [tStuck]
  have hI1 : colI tStuck st.Mv st.Iv 1 = (tStuck 1).ii * st.Iv 1 := rfl
  have hI1v : colI tStuck st.Mv st.Iv 1 = 1 := by
    rw [hI1, h3]
    norm_num [tStuck]
  have hI2 : colI tStuck st.Mv st.Iv 2
      = (tStuck 2).mi * st.Mv 2 + (tStuck 2).ii * st.Iv 2 := rfl
  have hI2v : colI tStuck st.Mv st.Iv 2 = 0 := by
    rw [hI2, h2, h4]
    norm_num [tStuck, TRow.zero]
  have hD1 : colD tStuck (colM tStuck st.Mv st.Iv st.Dv) 1 = 0 := rfl
  have hD2 : colD tStuck (colM tStuck st.Mv st.Iv st.Dv) 2
      = (tStuck 1).md * colM tStuck st.Mv st.Iv st.Dv 1
        + (tStuck 1).dd * colD tStuck (colM tStuck st.Mv st.Iv st.Dv) 1 := rfl
  have hD2v : colD tStuck (colM tStuck st.Mv st.Iv st.Dv) 2 = 0 := by
    rw [hD2, hM1, hD1]
    norm_num [tStuck]
  refine ⟨hM1, hM2v, hI1v, hI2v, hD1, hD2v, ?_⟩
  show st.psum + colM tStuck st.Mv st.Iv st.Dv 2
      + colD tStuck (colM tStuck st.Mv st.Iv st.Dv) 2 = 0
  rw [h7, hM2v, hD2v]
  norm_num

lemma stuck_surv (st : MLState) (h : stuckInv st) :
    survRaw tStuck 2 st.Mv st.Iv st.Dv = 1 := by
  obtain ⟨h1, h2, h3, h4, h5, h6, h7⟩ := h
  unfold survRaw
  rw [show survBody tStuck st.Mv st.Iv st.Dv 2
      = 0 + (st.Iv 2 + st.Mv 2 * (1 - (tStuck 2).md)
        + st.Dv 2 * (1 - (tStuck 2).dd)) from rfl]
  rw [h2, h3, h4, h6]
  norm_num [tStuck, TRow.zero]

lemma stuck_none (eps : ℚ) (heps : eps ≤ 1) :
    ∀ (fuel col : Nat) (st : MLState), stuckInv st →
      mlFind tStuck 2 eps fuel col st = none := by
  intro fuel
  induction fuel with
  | zero =>
    intro col st h
    rfl
  | succ m ih =>
    intro col st h
    have hst' := stuckInv_step st h
    unfold mlFind
    dsimp only
    have hcond : ¬ (survRaw tStuck 2 (mlStep tStuck 2 st).Mv
        (mlStep tStuck 2 st).Iv (mlStep tStuck 2 st).Dv
        / (survRaw tStuck 2 (mlStep tStuck 2 st).Mv (mlStep tStuck 2 st).Iv
            (mlStep tStuck 2 st).Dv + (mlStep tStuck 2 st).psum) < eps) := by
      rw [stuck_surv _ hst', hst'.2.2.2.2.2.2]
      have hone : (1 : ℚ) / (1 + 0) = 1 := by norm_num
      rw [hone]
      exact not_lt.mpr heps
    rw [if_neg hcond]
    exact ih (col + 1) _ hst'

/-- Claim C3 evaluated at the failing input: on the two-state model
hmmStuck whose mass loops forever in the first insert state (so the
stopping condition is never reached within the 200,000-column cap), the
estimator returns success with the model's stale creation-time max_length
of -1 instead of the RangeExceeded (eslERANGE) failure the claim
requires: eslERANGE is only returned when the stale or found max_length is
itself at least the cap. -/
theorem spec_C3 :
    profillic_p7_Builder_MaxLength hmmStuck (1/10000000) = .ok hmmStuck := by
  unfold profillic_p7_Builder_MaxLength
  rw [if_neg (by decide : ¬ hmmStuck.M = 1)]
  have hnone : mlSearch hmmStuck.t hmmStuck.M (1/10000000) = none := by
    show mlSearch tStuck 2 (1/10000000) = none
    unfold mlSearch
    exact stuck_none (1/10000000) (by norm_num) (lengthBound - 2) 3 _
      stuckInv_init
  rw [hnone]
  dsimp only
  rw [if_neg (by decide : ¬ ((lengthBound : Int) ≤ hmmStuck.max_length))]

/-! ## Claim C2: the in-process reader emits results in input order -/

lemma pendInsertTail_perm (i : Nat) (l : List Nat) :
    List.Perm (pendInsertTail i l) (i :: l) := by
  induction l with
  | nil => exact List.Perm.refl _
  | cons y r ih =>
    unfold pendInsertTail
    split
    · exact (ih.cons y).trans (List.Perm.swap i y r)
    · exact List.Perm.refl _

lemma pendInsertTail_mem (i x : Nat) (l : List Nat) :
    x ∈ pendInsertTail i l ↔ x = i ∨ x ∈ l := by
  rw [(pendInsertTail_perm i l).mem_iff]
  simp

lemma pendInsertTail_sorted (i : Nat) (l : List Nat)
    (hs : l.Pairwise (· < ·)) (hne : i ∉ l) :
    (pendInsertTail i l).Pairwise (· < ·) := by
  induction l with
  | nil => simp [pendInsertTail]
  | cons y r ih =>
    rw [List.pairwise_cons] at hs
    obtain ⟨hy, hr⟩ := hs
    unfold pendInsertTail
    split
    · rename_i hgt
      rw [List.pairwise_cons]
      constructor
      · intro b hb
        rcases (pendInsertTail_mem i b r).mp hb with hb | hb
        · omega
        · exact hy b hb
      · exact ih hr (fun hmem => hne (List.mem_cons_of_mem y hmem))
    · rename_i hle
      have hiy : i < y := by
        have h2 : i ≠ y := fun e => hne (by rw [e]; exact List.mem_cons_self y r)
        omega
      rw [List.pairwise_cons]
      constructor
      · intro b hb
        rcases List.mem_cons.mp hb with hb | hb
        · omega
        · exact lt_trans hiy (hy b hb)
      · rw [List.pairwise_cons]
        exact ⟨hy, hr⟩

lemma pendInsert_perm (i : Nat) (l : List Nat) :
    List.Perm (pendInsert i l) (i :: l) := by
  cases l with
  | nil => exact List.Perm.refl _
  | cons x rest =>
    have hred : pendInsert i (x :: rest)
        = if i < x then i :: x :: rest else x :: pendInsertTail i rest := rfl
    rw [hred]
    by_cases hlt : i < x
    · rw [if_pos hlt]
    · rw [if_neg hlt]
      exact ((pendInsertTail_perm i rest).cons x).trans (List.Perm.swap i x rest)

lemma pendInsert_mem (i x : Nat) (l : List Nat) :
    x ∈ pendInsert i l ↔ x = i ∨ x ∈ l := by
  rw [(pendInsert_perm i l).mem_iff]
  simp

lemma pendInsert_sorted (i : Nat) (l : List Nat)
    (hs : l.Pairwise (· < ·)) (hne : i ∉ l) :
    (pendInsert i l).Pairwise (· < ·) := by
  cases l with
  | nil => simp [pendInsert]
  | cons x rest =>
    rw [List.pairwise_cons] at hs
    obtain ⟨hx, hr⟩ := hs
    have hred : pendInsert i (x :: rest)
        = if i < x then i :: x :: rest else x :: pendInsertTail i rest := rfl
    rw [hred]
    by_cases hlt : i < x
    · rw [if_pos hlt]
      rw [List.pairwise_cons]
      refine ⟨?_, ?_⟩
      · intro b hb
        rcases List.mem_cons.mp hb with hb | hb
        · omega
        · exact lt_trans hlt (hx b hb)
      · rw [List.pairwise_cons]
        exact ⟨hx, hr⟩
    · rw [if_neg hlt]
      have hxi : x < i := by
        have h2 : i ≠ x :=
          fun e => hne (by rw [e]; exact List.mem_cons_self x rest)
        omega
      rw [List.pairwise_cons]
      refine ⟨?_, ?_⟩
      · intro b hb
        rcases (pendInsertTail_mem i b rest).mp hb with hb | hb
        · omega
        · exact hx b hb
      · exact pendInsertTail_sorted i rest hr
          (fun hmem => hne (List.mem_cons_of_mem x hmem))

lemma range1_concat (n : Nat) :
    List.range' 1 n ++ [n + 1] = List.range' 1 (n + 1) := by
  have h := @List.range'_concat 1 1 n
  rw [one_mul, Nat.add_comm 1 n] at h
  exact h.symm

lemma drainPend_spec : ∀ (p : List Nat) (nx : Nat) (o : List Nat),
    p.Pairwise (· < ·) → (∀ x ∈ p, nx ≤ x) →
    o = List.range' 1 (nx - 1) → 1 ≤ nx →
    1 ≤ (drainPend nx p o).1 ∧
    (drainPend nx p o).2.2 = List.range' 1 ((drainPend nx p o).1 - 1) ∧
    (drainPend nx p o).2.1.Pairwise (· < ·) ∧
    (∀ x ∈ (drainPend nx p o).2.1, (drainPend nx p o).1 < x) ∧
    (drainPend nx p o).2.2 ++ (drainPend nx p o).2.1 = o ++ p := by
  intro p
  induction p with
  | nil =>
    intro nx o hs hb ho h1
    have hred : drainPend nx [] o = (nx, [], o) := rfl
    rw [hred]
    refine ⟨h1, ho, List.Pairwise.nil, ?_, by simp⟩
    intro x hx
    exact absurd hx (List.not_mem_nil x)
  | cons x rest ih =>
    intro nx o hs hb ho h1
    rw [List.pairwise_cons] at hs
    obtain ⟨hx, hr⟩ := hs
    by_cases hxe : x = nx
    · obtain ⟨m, rfl⟩ : ∃ m, nx = m + 1 := ⟨nx - 1, by omega⟩
      have hred0 : drainPend (m + 1) (x :: rest) o
          = if x = m + 1 then drainPend (m + 1 + 1) rest (o ++ [x])
            else (m + 1, x :: rest, o) := rfl
      have hred : drainPend (m + 1) (x :: rest) o
          = drainPend (m + 1 + 1) rest (o ++ [x]) := by
        rw [hred0, if_pos hxe]
      rw [hred]
      have hb' : ∀ y ∈ rest, m + 1 + 1 ≤ y := by
        intro y hy
        have := hx y hy
        omega
      have ho' : o ++ [x] = List.range' 1 (m + 1 + 1 - 1) := by
        rw [ho, hxe]
        simp only [Nat.add_sub_cancel]
        exact range1_concat m
      have hih := ih (m + 1 + 1) (o ++ [x]) hr hb' ho' (by omega)
      refine ⟨hih.1, hih.2.1, hih.2.2.1, hih.2.2.2.1, ?_⟩
      rw [hih.2.2.2.2]
      simp
    · have hred0 : drainPend nx (x :: rest) o
          = if x = nx then drainPend (nx + 1) rest (o ++ [x])
            else (nx, x :: rest, o) := rfl
      have hred : drainPend nx (x :: rest) o = (nx, x :: rest, o) := by
        rw [hred0, if_neg hxe]
      rw [hred]
      refine ⟨h1, ho, ?_, ?_, rfl⟩
      · rw [List.pairwise_cons]
        exact ⟨hx, hr⟩
      · intro y hy
        rcases List.mem_cons.mp hy with hy | hy
        · have := hb x (List.mem_cons_self x rest)
          omega
        · have h2 := hx y hy
          have h3 := hb x (List.mem_cons_self x rest)
          omega

lemma tlStep_inv (s : TLState) (rec : List Nat) (i : Nat)
    (h : tlInv s rec) (hi1 : 1 ≤ i) (hnew : i ∉ rec) :
    tlInv (tlStep s i) (i :: rec) := by
  obtain ⟨hn1, hout, hsort, hgt, hperm⟩ := h
  by_cases hie : i = s.next
  · have hred : tlStep s i
        = { next := (drainPend (s.next + 1) s.pend (s.out ++ [i])).1,
            pend := (drainPend (s.next + 1) s.pend (s.out ++ [i])).2.1,
            out := (drainPend (s.next + 1) s.pend (s.out ++ [i])).2.2 } := by
      unfold tlStep
      rw [if_pos hie]
    have hb : ∀ x ∈ s.pend, s.next + 1 ≤ x := fun x hx => hgt x hx
    have ho : s.out ++ [i] = List.range' 1 (s.next + 1 - 1) := by
      rw [hout, hie]
      obtain ⟨m, hm⟩ : ∃ m, s.next = m + 1 := ⟨s.next - 1, by omega⟩
      rw [hm]
      simp only [Nat.add_sub_cancel]
      exact range1_concat m
    have hd := drainPend_spec s.pend (s.next + 1) (s.out ++ [i]) hsort hb ho
      (by omega)
    rw [hred]
    refine ⟨hd.1, hd.2.1, hd.2.2.1, hd.2.2.2.1, ?_⟩
    show List.Perm ((drainPend (s.next + 1) s.pend (s.out ++ [i])).2.2
        ++ (drainPend (s.next + 1) s.pend (s.out ++ [i])).2.1) (i :: rec)
    rw [hd.2.2.2.2, List.append_assoc]
    exact List.perm_middle.trans (hperm.cons i)
  · have hred : tlStep s i = { s with pend := pendInsert i s.pend } := by
      unfold tlStep
      rw [if_neg hie]
    have hipend : i ∉ s.pend := by
      intro hip
      exact hnew (hperm.mem_iff.mp (List.mem_append.mpr (Or.inr hip)))
    have hnext : s.next < i := by
      rcases Nat.lt_trichotomy i s.next with hlt | heq | hgt2
      · exfalso
        apply hnew
        apply hperm.mem_iff.mp
        apply List.mem_append.mpr
        left
        rw [hout, List.mem_range'_1]
        omega
      · exact absurd heq hie
      · exact hgt2
    rw [hred]
    refine ⟨hn1, hout, ?_, ?_, ?_⟩
    · show (pendInsert i s.pend).Pairwise (· < ·)
      exact pendInsert_sorted i s.pend hsort hipend
    · show ∀ x ∈ pendInsert i s.pend, s.next < x
      intro x hx
      rcases (pendInsert_mem i x s.pend).mp hx with hb | hb
      · omega
      · exact hgt x hb
    · show List.Perm (s.out ++ pendInsert i s.pend) (i :: rec)
      have h2 : List.Perm (s.out ++ pendInsert i s.pend)
          (s.out ++ (i :: s.pend)) :=
        (pendInsert_perm i s.pend).append_left s.out
      exact h2.trans (List.perm_middle.trans (hperm.cons i))

lemma tlInv_perm (s : TLState) (rec rec' : List Nat)
    (h : tlInv s rec) (hp : List.Perm rec rec') : tlInv s rec' :=
  ⟨h.1, h.2.1, h.2.2.1, h.2.2.2.1, h.2.2.2.2.trans hp⟩

lemma tlRun_go : ∀ (l : List Nat) (s : TLState) (rec : List Nat),
    tlInv s rec → l.Nodup → (∀ x ∈ l, 1 ≤ x) → (∀ x ∈ l, x ∉ rec) →
    tlInv (List.foldl tlStep s l) (rec ++ l) := by
  intro l
  induction l with
  | nil =>
    intro s rec h _ _ _
    simpa using h
  | cons i l' ih =>
    intro s rec h hnd h1 hmem
    rw [List.nodup_cons] at hnd
    have hstep := tlStep_inv s rec i h (h1 i (List.mem_cons_self i l'))
      (hmem i (List.mem_cons_self i l'))
    have hih := ih (tlStep s i) (i :: rec) hstep hnd.2
      (fun x hx => h1 x (List.mem_cons_of_mem i hx))
      (fun x hx hxr => by
        rcases List.mem_cons.mp hxr with he | hr
        · exact hnd.1 (he ▸ hx)
        · exact hmem x (List.mem_cons_of_mem i hx) hr)
    show tlInv (List.foldl tlStep (tlStep s i) l') (rec ++ i :: l')
    exact tlInv_perm _ _ _ hih List.perm_middle.symm

lemma tlInv_final (s : TLState) (N : Nat)
    (h : tlInv s (List.range' 1 N)) :
    s.out = List.range' 1 N ∧ s.pend = [] := by
  obtain ⟨hn1, hout, hsort, hgt, hperm⟩ := h
  have hnN : N < s.next := by
    by_contra hle
    push_neg at hle
    have hmem : s.next ∈ List.range' 1 N := by
      rw [List.mem_range'_1]
      omega
    rcases List.mem_append.mp (hperm.mem_iff.mpr hmem) with hmo | hmp
    · rw [hout, List.mem_range'_1] at hmo
      omega
    · exact lt_irrefl _ (hgt _ hmp)
  have hlen : s.out.length + s.pend.length = N := by
    have hl := hperm.length_eq
    rw [List.length_append, List.length_range' 1 1 N] at hl
    exact hl
  have houtlen : s.out.length = s.next - 1 := by
    rw [hout]
    exact List.length_range' 1 1 _
  have hpe : s.pend = [] := List.length_eq_zero.mp (by omega)
  refine ⟨?_, hpe⟩
  rw [hout]
  congr 1
  rw [hpe] at hlen
  simp at hlen
  omega

/-- Claim C2: for every run over N inputs, whatever completion order the
workers produce (any permutation of 1..N), the reader's result handling
emits exactly the index sequence 1..N in increasing order, and the pending
list is empty at shutdown (so the fatal non-empty-pending check never
fires). -/
theorem spec_C2 (N : Nat) (l : List Nat)
    (hp : List.Perm l (List.range' 1 N)) :
    (tlRun l).out = List.range' 1 N ∧ (tlRun l).pend = [] := by
  have hinv0 : tlInv ⟨1, [], []⟩ ([] : List Nat) := by
    refine ⟨le_refl 1, rfl, List.Pairwise.nil, ?_, List.Perm.refl _⟩
    intro x hx
    exact absurd hx (List.not_mem_nil x)
  have hnd : l.Nodup := hp.nodup_iff.mpr (List.nodup_range' 1 N 1 Nat.one_pos)
  have h1 : ∀ x ∈ l, 1 ≤ x := by
    intro x hx
    have hm := hp.mem_iff.mp hx
    rw [List.mem_range'_1] at hm
    omega
  have hrun := tlRun_go l ⟨1, [], []⟩ [] hinv0 hnd h1
    (fun x _ hx => absurd hx (List.not_mem_nil x))
  exact tlInv_final _ N (tlInv_perm _ _ _ hrun hp)

/-- Witness for C2 at the concrete completion order [2, 1, 4, 3] over four
inputs. -/
theorem spec_C2_witness :
    (tlRun [2, 1, 4, 3]).out = List.range' 1 4 ∧
    (tlRun [2, 1, 4, 3]).pend = [] :=
  spec_C2 4 [2, 1, 4, 3] (by decide)
